import Mathlib

/-!
Verification development for the Sketchy asset synchronizer
(`src/source/ts/index.ts`).

The tool reconciles Xcode-style image sets against a flat pool of exported
images.  We shallowly embed the two core functions:

* `findImagePath` (source lines 123-141): the Locator, which resolves a
  manifest entry to a file name in the source pool;
* `syncImageSet` / `syncStep` (source lines 86-119): the Reconciler, which
  classifies each entry (unassigned / missing / updated / skipped), performs
  the modelled filesystem mutations, and tracks whether the manifest needs to
  be rewritten.

Modelling decisions:

* Both the source pool and the image-set folder are flat directories, so a
  directory is an association list from file name to `File`; `List.lookup`
  models `fs.existsSync` + `fs.statSync` (present entries) and path
  concatenation is dropped since names are atomic.
* `fs.statSync`'s `mtimeMs` is a rational number of milliseconds; JavaScript
  `Math.round` (round half towards positive infinity) is `jsRound`.
* A JavaScript exception (the `TypeError` thrown by
  `image.appearances[0].value` on an empty `appearances` array, or a
  `copySync` failure) is `Except.error ()`.
* JavaScript truthiness of the optional `image.filename` string is
  `strTruthy`: `undefined` and the empty string are falsy.
* `JSON.stringify(contents, null, 2).replace(/": /, ...)` on line 117: the
  regex has no special characters and no global flag, so `String.replace`
  substitutes exactly the first occurrence; `replaceFirstAux` models this.
-/

deriving instance DecidableEq for Except

/-- A file in the modelled filesystem: the byte content and the modification
time in (possibly fractional) milliseconds, as reported by `fs.statSync`. -/
structure File where
  content : List Nat
  mtimeMs : ℚ
deriving DecidableEq

/-- `stat.size`: the byte length of the file. -/
def File.size (f : File) : Nat := f.content.length

/-- A flat directory: an association list from file name to file. -/
abbrev FsDir := List (String × File)

/-- Model of `fs.removeSync` of one file in a flat directory (line 104); it is
a no-op when the name is not present. -/
def eraseKey (d : FsDir) (k : String) : FsDir :=
  List.filter (fun p => !(p.1 == k)) d

/-- Model of `fs.copySync` with `preserveTimestamps: true` into a flat
directory (line 112): the destination entry becomes an exact copy of the
source file, overwriting any previous entry of that name. -/
def upsert (d : FsDir) (k : String) (f : File) : FsDir :=
  (k, f) :: eraseKey d k

/-- JavaScript `Math.round`: round half towards positive infinity, i.e.
`⌊q + 1/2⌋` (see `jsRound_eq_floor`), written with integer arithmetic on the
numerator and denominator. -/
def jsRound (q : ℚ) : ℤ := Int.ediv (2 * q.num + (q.den : ℤ)) (2 * (q.den : ℤ))

/-- Sanity check of the rounding model: `jsRound` is the floor of
`q + 1/2`, which is exactly JavaScript `Math.round` (half rounds up, also
for negative inputs). -/
theorem jsRound_eq_floor (q : ℚ) : jsRound q = Int.floor (q + 1 / 2) := by
  have hb : (0 : ℤ) < 2 * (q.den : ℤ) := by positivity
  have hbQ : (0 : ℚ) < ((2 * (q.den : ℤ) : ℤ) : ℚ) := by exact_mod_cast hb
  have hmul : q * ((q.den : ℤ) : ℚ) = ((q.num : ℤ) : ℚ) := by
    exact_mod_cast Rat.mul_den_eq_num q
  have hq : q + 1 / 2 =
      ((2 * q.num + (q.den : ℤ) : ℤ) : ℚ) / ((2 * (q.den : ℤ) : ℤ) : ℚ) := by
    rw [eq_div_iff (ne_of_gt hbQ)]
    push_cast
    push_cast at hmul
    linear_combination 2 * hmul
  rw [jsRound, eq_comm, Int.floor_eq_iff, hq]
  constructor
  · rw [le_div_iff₀ hbQ]
    exact_mod_cast Int.ediv_mul_le (2 * q.num + (q.den : ℤ)) hb.ne'
  · rw [div_lt_iff₀ hbQ]
    exact_mod_cast Int.lt_ediv_add_one_mul_self (2 * q.num + (q.den : ℤ)) hb

/-- Model of Node `path.extname` for names without path separators: the
suffix starting at the last dot, empty when there is no dot or when the only
dot is the leading character. -/
def extname (s : String) : String :=
  match List.findIdx? (fun c => c == ('.' : Char)) s.data.reverse with
  | none => ""
  | some j =>
    let pos := s.data.length - 1 - j
    if pos = 0 then "" else String.mk (List.drop pos s.data)

/-- Model of Node `path.basename(name, ext)` for names without path
separators: strips `ext` when it is a proper suffix of `name`. -/
def basenameStrip (name ext : String) : String :=
  if name != ext && List.isSuffixOf ext.data name.data then
    String.mk (List.take (name.data.length - ext.data.length) name.data)
  else
    name

/-- Model of `.replace(/\./ig, "-")` (line 132): every dot becomes a
hyphen. -/
def replaceDots (s : String) : String :=
  String.mk (List.map (fun c => if c == ('.' : Char) then ('-' : Char) else c) s.data)

/-- Model of `.toLowerCase()` (line 132) on ASCII names. -/
def lowerStr (s : String) : String :=
  String.mk (List.map Char.toLower s.data)

/-- Line 132: the candidate base name derived from the image-set folder name:
strip the catalog-type extension, replace every dot by a hyphen and
lowercase. -/
def deriveBase (setName : String) : String :=
  lowerStr (replaceDots (basenameStrip setName (extname setName)))

/-- One appearance record of a manifest entry. -/
structure AppearanceEntry where
  appearance : String
  value : String
deriving DecidableEq

/-- One manifest entry (`ImageSetImage`, source lines 7-12).  `filename` is
optional at runtime (the code checks `=== undefined`), and `appearances` is
an optional array. -/
structure ImageSetImage where
  idiom : String
  filename : Option String
  scale : String
  appearances : Option (List AppearanceEntry)
deriving DecidableEq

/-- JavaScript truthiness of the optional `image.filename` string:
`undefined` and the empty string are falsy. -/
def strTruthy : Option String → Bool
  | none => false
  | some s => !(s == ("" : String))

/-- The literal `.png` suffix of every derived candidate name. -/
def pngExt : String := ".png"

/-- The literal `-light` infix of the fallback candidate name (line 138). -/
def lightStr : String := "-light"

/-- Line 130: the appearance suffix.  `image.appearances[0].value` throws a
`TypeError` when the array is present but empty, modelled as
`Except.error ()`. -/
def codeAppearanceSuffix : Option (List AppearanceEntry) → Except Unit String
  | none => Except.ok ("")
  | some [] => Except.error ()
  | some (a :: _) => Except.ok (("-") ++ a.value)

/-- Line 131: the scale suffix; empty for scale `1x`, otherwise `@` followed
by the scale string. -/
def codeScaleSuffix (scale : String) : String :=
  if scale == ("1x" : String) then ("") else ("@") ++ scale

/-- The appearance suffix as described by the specification, as a total
function: empty when no appearances are recorded, else `-` followed by the
value of the first appearance entry only.  Used to state the specification
claims; it agrees with `codeAppearanceSuffix` away from the partiality of
the latter. -/
def totalAppearanceSuffix : Option (List AppearanceEntry) → String
  | none => ""
  | some [] => ""
  | some (a :: _) => ("-") ++ a.value

/-- The Locator (`findImagePath`, source lines 123-141).  Returns
`Except.ok (some name)` for a hit in the pool, `Except.ok none` for
not-found, and `Except.error ()` when the appearance-suffix computation
throws. -/
def findImagePath (setName : String) (pool : FsDir) (image : ImageSetImage) :
    Except Unit (Option String) :=
  if strTruthy image.filename && (List.lookup (Option.getD image.filename ("")) pool).isSome then
    Except.ok image.filename
  else
    match codeAppearanceSuffix image.appearances with
    | Except.error e => Except.error e
    | Except.ok appearance =>
      let scaleSuf := codeScaleSuffix image.scale
      let base := deriveBase setName
      if (List.lookup (base ++ appearance ++ scaleSuf ++ pngExt) pool).isSome then
        Except.ok (some (base ++ appearance ++ scaleSuf ++ pngExt))
      else if (List.lookup (base ++ lightStr ++ scaleSuf ++ pngExt) pool).isSome then
        Except.ok (some (base ++ lightStr ++ scaleSuf ++ pngExt))
      else
        Except.ok none

/-- The per-image-set outcome report (`ImageSetSyncResult`, lines 21-26). -/
structure ImageSetSyncResult where
  unassigned : Bool
  updated : List String
  missing : List String
  skipped : List String
deriving DecidableEq

/-- The freshly constructed report (line 89). -/
def emptyResult : ImageSetSyncResult := ⟨false, [], [], []⟩

/-- The Reconciler state while iterating over `contents.images`:
the image-set folder, the processed entries (whose `filename` fields may
have been reassigned in place), the report, and the
`needsContentsUpdate` flag. -/
structure SyncState where
  set : FsDir
  images : List ImageSetImage
  res : ImageSetSyncResult
  needsUpdate : Bool
deriving DecidableEq

/-- Line 107: `oldStat && newStat && newStat.size === oldStat.size &&
Math.round(newStat.mtimeMs) === Math.round(oldStat.mtimeMs)`. -/
def statMatchB : Option File → Option File → Bool
  | some os, some ns => ns.size == os.size && (jsRound ns.mtimeMs == jsRound os.mtimeMs)
  | _, _ => false

/-- Line 93: `image.filename && path.join(imageSetPath, image.filename)` —
the old path is recorded only when the filename is truthy. -/
def oldNameOf (image : ImageSetImage) : Option String :=
  if strTruthy image.filename then image.filename else none

/-- One iteration of the `contents.images.forEach` body
(source lines 92-114). -/
def syncStep (setName : String) (pool : FsDir) (st : SyncState)
    (image : ImageSetImage) : Except Unit SyncState :=
  let oldName : Option String := oldNameOf image
  match findImagePath setName pool image with
  | Except.error e => Except.error e
  | Except.ok none =>
    match image.filename with
    | none =>
      Except.ok { st with images := st.images ++ [image],
                          res := { st.res with unassigned := true } }
    | some f =>
      Except.ok { st with images := st.images ++ [image],
                          res := { st.res with missing := st.res.missing ++ [f] } }
  | Except.ok (some n) =>
    let oldStat : Option File := Option.bind oldName (fun o => List.lookup o st.set)
    let newStat : Option File := List.lookup n pool
    if oldName ≠ some n then
      let cleared : FsDir := match oldName with
        | some o => eraseKey st.set o
        | none => st.set
      match newStat with
      | none => Except.error ()
      | some nf =>
        Except.ok { set := upsert cleared n nf,
                    images := st.images ++ [{ image with filename := some n }],
                    res := { st.res with updated := st.res.updated ++ [n] },
                    needsUpdate := true }
    else
      if statMatchB oldStat newStat then
        Except.ok { st with images := st.images ++ [image],
                            res := { st.res with skipped := st.res.skipped ++ [n] } }
      else
        match newStat with
        | none => Except.error ()
        | some nf =>
          Except.ok { st with set := upsert st.set n nf,
                              images := st.images ++ [image],
                              res := { st.res with updated := st.res.updated ++ [n] } }

/-- The fold of `syncStep` over the manifest entries. -/
def syncImages (setName : String) (pool : FsDir) :
    SyncState → List ImageSetImage → Except Unit SyncState
  | st, [] => Except.ok st
  | st, image :: rest =>
    match syncStep setName pool st image with
    | Except.error e => Except.error e
    | Except.ok st' => syncImages setName pool st' rest

/-- The Reconciler (`syncImageSet`, source lines 86-119), starting from the
given on-disk image-set folder and manifest entries. -/
def syncImageSet (setName : String) (pool : FsDir) (setDir : FsDir)
    (images : List ImageSetImage) : Except Unit SyncState :=
  syncImages setName pool ⟨setDir, [], emptyResult, false⟩ images

/-- Line 117's guard: the manifest file is written back exactly when the
`needsContentsUpdate` flag was raised. -/
def manifestRewritten (st : SyncState) : Bool := st.needsUpdate

/-- Whether the Locator resolves the entry to some pool file. -/
def locHit (setName : String) (pool : FsDir) (image : ImageSetImage) : Bool :=
  match findImagePath setName pool image with
  | Except.ok (some _) => true
  | _ => false

/-- First-occurrence literal replacement, the semantics of
`String.prototype.replace` with a non-global literal regex. -/
def replaceFirstAux (pat rep : List Char) : List Char → List Char
  | [] => []
  | c :: cs =>
    if List.isPrefixOf pat (c :: cs) then rep ++ List.drop pat.length (c :: cs)
    else c :: replaceFirstAux pat rep cs

/-- The key/value delimiter matched by the regex `/": /` on line 117. -/
def delimPat : String := "\": "

/-- The padded delimiter substituted on line 117. -/
def delimRep : String := "\" : "

/-- Line 117's post-serialization transform:
`JSON.stringify(...).replace(/": /, ...)`. -/
def xcodeQuirk (s : String) : String :=
  String.mk (replaceFirstAux delimPat.data delimRep.data s.data)

/-- The manifest write of line 117: performed only when an entry's filename
was reassigned, and then with the colon-padding quirk applied to the
serialized contents. -/
def writtenManifest (st : SyncState) (serialized : String) : Option String :=
  if manifestRewritten st then some (xcodeQuirk serialized) else none

/-! ### Helper lemmas about the Locator -/

/-- A string with the `.png` suffix appended is never empty. -/
theorem append_png_ne_empty (a : String) : a ++ pngExt ≠ ("" : String) := by
  intro h
  have h2 := congrArg String.data h
  simp [String.data_append, pngExt] at h2

/-- When the recorded filename is truthy and present in the pool, the Locator
takes the early-return branch of line 127. -/
theorem findImagePath_filename_hit (setName : String) (pool : FsDir)
    (image : ImageSetImage) (n : String) (hf : image.filename = some n)
    (hn : n ≠ ("" : String)) (hp : (List.lookup n pool).isSome = true) :
    findImagePath setName pool image = Except.ok (some n) := by
  simp [findImagePath, hf, strTruthy, hn, Option.getD, hp]

/-- When the recorded filename is falsy or names no pool file, the guard of
line 127 is false. -/
theorem stale_cond_false (pool : FsDir) (image : ImageSetImage)
    (hstale : strTruthy image.filename = false ∨
      ∃ f, image.filename = some f ∧ List.lookup f pool = none) :
    (strTruthy image.filename &&
      (List.lookup (Option.getD image.filename ("")) pool).isSome) = false := by
  rcases hstale with h | ⟨f, hf, hnone⟩
  · simp [h]
  · simp [hf, hnone]

/-- Any name the Locator returns exists in the pool and is non-empty. -/
theorem findImagePath_ok_props (setName : String) (pool : FsDir)
    (image : ImageSetImage) (n : String)
    (h : findImagePath setName pool image = Except.ok (some n)) :
    (List.lookup n pool).isSome = true ∧ n ≠ ("" : String) := by
  unfold findImagePath at h
  split at h
  · next hc =>
    rcases Bool.and_eq_true_iff.mp hc with ⟨ht, hl⟩
    cases hf : image.filename with
    | none => rw [hf] at ht; simp [strTruthy] at ht
    | some m =>
      rw [hf] at h hl ht
      have hmn : m = n := by simpa using h
      subst hmn
      refine ⟨by simpa [Option.getD] using hl, ?_⟩
      simpa [strTruthy] using ht
  · next hc =>
    split at h
    · simp at h
    · next appearance happ =>
      dsimp only at h
      split at h
      · next h1 =>
        have hn : (deriveBase setName ++ appearance ++ codeScaleSuffix image.scale ++ pngExt) = n := by
          simpa using h
        subst hn
        exact ⟨h1, append_png_ne_empty _⟩
      · split at h
        · next h2 =>
          have hn : (deriveBase setName ++ lightStr ++ codeScaleSuffix image.scale ++ pngExt) = n := by
            simpa using h
          subst hn
          exact ⟨h2, append_png_ne_empty _⟩
        · simp at h

/-! ### C1 -/

/-- C1: when the recorded filename is absent (or falsy) or names no existing
pool file, the Locator falls through to name derivation: base name derived
from the image-set folder name (extension stripped, dots to hyphens,
lowercased), then `<base><appearance><scale>.png`, then
`<base>-light<scale>.png`, else not-found — a stale recorded filename never
short-circuits to not-found. -/
theorem locator_stale_falls_through (setName : String) (pool : FsDir)
    (image : ImageSetImage)
    (hstale : strTruthy image.filename = false ∨
      ∃ f, image.filename = some f ∧ List.lookup f pool = none)
    (happ : image.appearances ≠ some ([] : List AppearanceEntry)) :
    findImagePath setName pool image =
      Except.ok
        (let c1 := deriveBase setName ++ totalAppearanceSuffix image.appearances ++
          codeScaleSuffix image.scale ++ pngExt
         let c2 := deriveBase setName ++ lightStr ++ codeScaleSuffix image.scale ++ pngExt
         if (List.lookup c1 pool).isSome then some c1
         else if (List.lookup c2 pool).isSome then some c2
         else none) := by
  have hcond := stale_cond_false pool image hstale
  have happ2 : codeAppearanceSuffix image.appearances =
      Except.ok (totalAppearanceSuffix image.appearances) := by
    cases h : image.appearances with
    | none => simp [codeAppearanceSuffix, totalAppearanceSuffix]
    | some l =>
      cases l with
      | nil => exact absurd h happ
      | cons a t => simp [codeAppearanceSuffix, totalAppearanceSuffix]
  simp only [findImagePath, hcond, Bool.false_eq_true, if_false, happ2]
  split_ifs <;> rfl

/-- Witness inputs for the Locator claims. -/
def wFileA : File := ⟨[1, 2, 3], 5⟩

def wPoolA : FsDir := [("my-icon-dark@2x.png", wFileA), ("stale.png", wFileA)]

def wImgStale : ImageSetImage :=
  ⟨"universal", some ("gone.png"), "2x", some [⟨"luminosity", "dark"⟩]⟩

/-- C1 witness: a stale recorded filename (`gone.png` is not in the pool)
falls through to the derived candidate `my-icon-dark@2x.png`. -/
theorem locator_stale_falls_through_wit :
    (strTruthy wImgStale.filename = false ∨
      ∃ f, wImgStale.filename = some f ∧ List.lookup f wPoolA = none) ∧
    wImgStale.appearances ≠ some ([] : List AppearanceEntry) ∧
    findImagePath ("My.Icon.imageset") wPoolA wImgStale =
      Except.ok (some ("my-icon-dark@2x.png")) := by
  refine ⟨Or.inr ⟨"gone.png", rfl, rfl⟩, by decide, ?_⟩
  rw [locator_stale_falls_through ("My.Icon.imageset") wPoolA wImgStale
    (Or.inr ⟨"gone.png", rfl, rfl⟩) (by decide)]
  decide

/-! ### C2 -/

/-- C2: when the recorded filename names an existing pool file, the Locator
returns exactly that name, without attempting name derivation — even when a
derived candidate name would also exist (and even when the `appearances`
array is degenerate, since derivation is never reached). -/
theorem locator_stable_filename (setName : String) (pool : FsDir)
    (image : ImageSetImage) (n : String) (hf : image.filename = some n)
    (hn : n ≠ ("" : String)) (hp : (List.lookup n pool).isSome = true) :
    findImagePath setName pool image = Except.ok (some n) :=
  findImagePath_filename_hit setName pool image n hf hn hp

/-- Pool for the C2 witness: both the recorded filename and the name the
derivation would produce exist. -/
def wPoolB : FsDir := [("custom.png", wFileA), ("icon.png", wFileA)]

/-- C2 witness: with set name `Icon.imageset` the derivation would produce
`icon.png`, which exists, yet the recorded `custom.png` is returned. -/
theorem locator_stable_filename_wit :
    (⟨"universal", some ("custom.png"), "1x", none⟩ : ImageSetImage).filename =
      some ("custom.png") ∧
    ("custom.png" : String) ≠ ("" : String) ∧
    (List.lookup ("custom.png" : String) wPoolB).isSome = true ∧
    findImagePath ("Icon.imageset") wPoolB ⟨"universal", some ("custom.png"), "1x", none⟩ =
      Except.ok (some ("custom.png")) :=
  ⟨rfl, by decide, by decide,
    locator_stable_filename ("Icon.imageset") wPoolB
      ⟨"universal", some ("custom.png"), "1x", none⟩ ("custom.png") rfl
      (by decide) (by decide)⟩

/-! ### C8 -/

/-- C8: the derived scale suffix is empty exactly for scale `1x` and `@S`
for any other scale `S`; the derived appearance suffix is empty when no
appearances are recorded and `-<value>` of the first appearance entry only,
regardless of how many appearances are present. -/
theorem suffix_derivation :
    (codeScaleSuffix ("1x") = ("" : String)) ∧
    (∀ s : String, s ≠ ("1x" : String) → codeScaleSuffix s = ("@") ++ s) ∧
    (codeAppearanceSuffix none = Except.ok ("" : String)) ∧
    (∀ (a : AppearanceEntry) (l : List AppearanceEntry),
      codeAppearanceSuffix (some (a :: l)) = Except.ok (("-") ++ a.value)) := by
  refine ⟨rfl, ?_, rfl, fun a l => rfl⟩
  intro s hs
  simp [codeScaleSuffix, hs]

/-- C8 witness: scale `2x` gives `@2x`; two recorded appearances give the
suffix of the first only. -/
theorem suffix_derivation_wit :
    (("2x" : String) ≠ ("1x" : String)) ∧
    codeScaleSuffix ("2x") = ("@2x" : String) ∧
    codeAppearanceSuffix (some [⟨"luminosity", "dark"⟩, ⟨"luminosity", "light"⟩]) =
      Except.ok ("-dark" : String) :=
  ⟨by decide, suffix_derivation.2.1 ("2x") (by decide),
    suffix_derivation.2.2.2 ⟨"luminosity", "dark"⟩ [⟨"luminosity", "light"⟩]⟩

/-! ### C10 -/

/-- C10: the Locator's derivation is total only when a present `appearances`
list is non-empty.  If the recorded filename does not resolve and
`appearances` is present but empty, the first-element access throws
(`Except.error`); with the precondition the function always returns
normally. -/
theorem locator_partiality (setName : String) (pool : FsDir) :
    (∀ image : ImageSetImage,
      image.appearances = some ([] : List AppearanceEntry) →
      (strTruthy image.filename = false ∨
        ∃ f, image.filename = some f ∧ List.lookup f pool = none) →
      findImagePath setName pool image = Except.error ()) ∧
    (∀ image : ImageSetImage,
      image.appearances ≠ some ([] : List AppearanceEntry) →
      ∃ r, findImagePath setName pool image = Except.ok r) := by
  constructor
  · intro image happ hstale
    have hcond := stale_cond_false pool image hstale
    simp [findImagePath, hcond, happ, codeAppearanceSuffix]
  · intro image happ
    by_cases hc : (strTruthy image.filename &&
        (List.lookup (Option.getD image.filename ("")) pool).isSome) = true
    · exact ⟨image.filename, by simp [findImagePath, hc]⟩
    · have hc' := Bool.eq_false_iff.mpr hc
      have happ2 : codeAppearanceSuffix image.appearances =
          Except.ok (totalAppearanceSuffix image.appearances) := by
        cases h : image.appearances with
        | none => simp [codeAppearanceSuffix, totalAppearanceSuffix]
        | some l =>
          cases l with
          | nil => exact absurd h happ
          | cons a t => simp [codeAppearanceSuffix, totalAppearanceSuffix]
      simp only [findImagePath, hc', Bool.false_eq_true, if_false, happ2]
      by_cases h1 : (List.lookup (deriveBase setName ++ totalAppearanceSuffix image.appearances ++
          codeScaleSuffix image.scale ++ pngExt) pool).isSome = true
      · exact ⟨some (deriveBase setName ++ totalAppearanceSuffix image.appearances ++
          codeScaleSuffix image.scale ++ pngExt), by simp [h1]⟩
      · have h1' := Bool.eq_false_iff.mpr h1
        by_cases h2 : (List.lookup (deriveBase setName ++ lightStr ++
            codeScaleSuffix image.scale ++ pngExt) pool).isSome = true
        · exact ⟨some (deriveBase setName ++ lightStr ++ codeScaleSuffix image.scale ++ pngExt),
            by simp [h1', h2]⟩
        · have h2' := Bool.eq_false_iff.mpr h2
          exact ⟨none, by simp [h1', h2']⟩

/-- Manifest entry with a present-but-empty appearances array. -/
def wImgEmptyApp : ImageSetImage := ⟨"universal", some ("gone.png"), "2x", some []⟩

/-- C10 witness: the empty-appearances entry crashes the Locator; the same
entry with no appearances is resolved normally. -/
theorem locator_partiality_wit :
    (wImgEmptyApp.appearances = some ([] : List AppearanceEntry) ∧
      findImagePath ("My.Icon.imageset") wPoolA wImgEmptyApp = Except.error ()) ∧
    ∃ r, findImagePath ("My.Icon.imageset") wPoolA
      ⟨"universal", some ("gone.png"), "2x", none⟩ = Except.ok r :=
  ⟨⟨rfl, (locator_partiality ("My.Icon.imageset") wPoolA).1 wImgEmptyApp rfl
      (Or.inr ⟨"gone.png", rfl, rfl⟩)⟩,
    (locator_partiality ("My.Icon.imageset") wPoolA).2
      ⟨"universal", some ("gone.png"), "2x", none⟩ (by decide)⟩

/-! ### C3 -/

/-- C3: when the Locator returns not-found, the entry is classified
`unassigned` if no filename was recorded and `missing` (under the recorded
name) otherwise; the image-set folder, the `needsContentsUpdate` flag and
the entry's `filename` field are all left unchanged, and the step returns
normally (no error). -/
theorem reconciler_not_found_classifies (setName : String) (pool : FsDir)
    (st : SyncState) (image : ImageSetImage)
    (hnone : findImagePath setName pool image = Except.ok none) :
    syncStep setName pool st image =
      Except.ok ⟨st.set, st.images ++ [image],
        (match image.filename with
         | none => { st.res with unassigned := true }
         | some f => { st.res with missing := st.res.missing ++ [f] }),
        st.needsUpdate⟩ := by
  simp only [syncStep, hnone]
  cases image.filename <;> rfl

/-- C3 witness: `gone.png` resolves nowhere in an empty pool; the entry is
classified missing and nothing else changes. -/
theorem reconciler_not_found_classifies_wit :
    findImagePath ("My.Icon.imageset") ([] : FsDir)
      ⟨"universal", some ("gone.png"), "2x", none⟩ = Except.ok none ∧
    syncStep ("My.Icon.imageset") ([] : FsDir)
        ⟨[("gone.png", wFileA)], [], emptyResult, false⟩
        ⟨"universal", some ("gone.png"), "2x", none⟩ =
      Except.ok ⟨[("gone.png", wFileA)],
        [⟨"universal", some ("gone.png"), "2x", none⟩],
        ⟨false, [], ["gone.png"], []⟩, false⟩ := by
  constructor
  · decide
  · rw [reconciler_not_found_classifies ("My.Icon.imageset") ([] : FsDir)
      ⟨[("gone.png", wFileA)], [], emptyResult, false⟩
      ⟨"universal", some ("gone.png"), "2x", none⟩ (by decide)]
    decide

/-! ### C4 -/

/-- C4: when the Locator's result has the same base name as the recorded
filename, the step compares size and millisecond-rounded modification time
of the old (image-set folder) and new (pool) files: if both agree the entry
is skipped with no filesystem mutation — even if the bytes differ —
otherwise the pool file is copied over and the entry classified updated; in
both cases the `filename` field and the `needsContentsUpdate` flag are
unchanged. -/
theorem reconciler_same_name_skip_or_update (setName : String) (pool : FsDir)
    (st : SyncState) (image : ImageSetImage) (n : String) (oldF newF : File)
    (hf : image.filename = some n) (hn : n ≠ ("" : String))
    (hold : List.lookup n st.set = some oldF)
    (hnew : List.lookup n pool = some newF) :
    ((oldF.size = newF.size ∧ jsRound oldF.mtimeMs = jsRound newF.mtimeMs) →
      syncStep setName pool st image =
        Except.ok ⟨st.set, st.images ++ [image],
          { st.res with skipped := st.res.skipped ++ [n] }, st.needsUpdate⟩) ∧
    (¬ (oldF.size = newF.size ∧ jsRound oldF.mtimeMs = jsRound newF.mtimeMs) →
      syncStep setName pool st image =
        Except.ok ⟨upsert st.set n newF, st.images ++ [image],
          { st.res with updated := st.res.updated ++ [n] }, st.needsUpdate⟩) := by
  have hp : (List.lookup n pool).isSome = true := by simp [hnew]
  have hfind := findImagePath_filename_hit setName pool image n hf hn hp
  have htr : oldNameOf image = some n := by simp [oldNameOf, strTruthy, hf, hn]
  have hred : syncStep setName pool st image =
      (if statMatchB (some oldF) (some newF) then
        Except.ok ⟨st.set, st.images ++ [image],
          { st.res with skipped := st.res.skipped ++ [n] }, st.needsUpdate⟩
      else
        Except.ok ⟨upsert st.set n newF, st.images ++ [image],
          { st.res with updated := st.res.updated ++ [n] }, st.needsUpdate⟩) := by
    simp only [syncStep, hfind, htr, hold, hnew, Option.bind, ne_eq,
      not_true_eq_false, if_false, reduceCtorEq, reduceIte]
  constructor
  · rintro ⟨h1, h2⟩
    have hb : statMatchB (some oldF) (some newF) = true := by
      simp [statMatchB, h1, h2]
    rw [hred, hb]
    simp
  · intro hne
    have hb : statMatchB (some oldF) (some newF) = false := by
      rcases not_and_or.mp hne with h | h
      · simp [statMatchB, beq_eq_false_iff_ne.mpr (Ne.symm h)]
      · simp [statMatchB, beq_eq_false_iff_ne.mpr (Ne.symm h)]
    rw [hred, hb]
    simp

/-- Old destination file for the C4 witness: one byte, mtime `1/2` ms. -/
def wOldSkip : File := ⟨[0], mkRat 1 2⟩

/-- New pool file for the C4 witness: a different byte, mtime `1` ms — same
size and same millisecond-rounded mtime as `wOldSkip`. -/
def wNewSkip : File := ⟨[9], (1 : ℚ)⟩

/-- New pool file for the C4 update case: two bytes, so the sizes differ. -/
def wNewUpd : File := ⟨[9, 9], (1 : ℚ)⟩

/-- C4 witness: equal size and equal rounded mtime give skipped even though
the bytes differ; a size change gives updated with the filename field kept. -/
theorem reconciler_same_name_skip_or_update_wit :
    (wOldSkip.size = wNewSkip.size ∧
      jsRound wOldSkip.mtimeMs = jsRound wNewSkip.mtimeMs ∧
      wOldSkip.content ≠ wNewSkip.content ∧
      syncStep ("Icon.imageset") ([("icon.png", wNewSkip)])
          ⟨[("icon.png", wOldSkip)], [], emptyResult, false⟩
          ⟨"universal", some ("icon.png"), "1x", none⟩ =
        Except.ok ⟨[("icon.png", wOldSkip)],
          [⟨"universal", some ("icon.png"), "1x", none⟩],
          ⟨false, [], [], ["icon.png"]⟩, false⟩) ∧
    (¬ (wOldSkip.size = wNewUpd.size ∧
        jsRound wOldSkip.mtimeMs = jsRound wNewUpd.mtimeMs) ∧
      syncStep ("Icon.imageset") ([("icon.png", wNewUpd)])
          ⟨[("icon.png", wOldSkip)], [], emptyResult, false⟩
          ⟨"universal", some ("icon.png"), "1x", none⟩ =
        Except.ok ⟨[("icon.png", wNewUpd)],
          [⟨"universal", some ("icon.png"), "1x", none⟩],
          ⟨false, ["icon.png"], [], []⟩, false⟩) := by
  constructor
  · refine ⟨by decide, by decide, by decide, ?_⟩
    rw [(reconciler_same_name_skip_or_update ("Icon.imageset")
      ([("icon.png", wNewSkip)]) ⟨[("icon.png", wOldSkip)], [], emptyResult, false⟩
      ⟨"universal", some ("icon.png"), "1x", none⟩ ("icon.png") wOldSkip wNewSkip
      rfl (by decide) (by decide) (by decide)).1 ⟨by decide, by decide⟩]
    decide
  · refine ⟨by decide, ?_⟩
    rw [(reconciler_same_name_skip_or_update ("Icon.imageset")
      ([("icon.png", wNewUpd)]) ⟨[("icon.png", wOldSkip)], [], emptyResult, false⟩
      ⟨"universal", some ("icon.png"), "1x", none⟩ ("icon.png") wOldSkip wNewUpd
      rfl (by decide) (by decide) (by decide)).2 (by decide)]
    decide

/-! ### C5 -/

/-- C5: when the Locator finds a path and either no old path was recorded or
the old and new base names differ, the step deletes the recorded old file
(a no-op when it did not exist on disk), rewrites the entry's `filename`
field to the new base name, raises the `needsContentsUpdate` flag, copies
the pool file into the image-set folder preserving its modification time
(the folder entry becomes an exact copy of the pool file), and classifies
the entry as updated. -/
theorem reconciler_replacement (setName : String) (pool : FsDir)
    (st : SyncState) (image : ImageSetImage) (n : String) (newF : File)
    (hfind : findImagePath setName pool image = Except.ok (some n))
    (hdiff : oldNameOf image ≠ some n)
    (hnew : List.lookup n pool = some newF) :
    syncStep setName pool st image =
      Except.ok ⟨upsert (match oldNameOf image with
          | some o => eraseKey st.set o
          | none => st.set) n newF,
        st.images ++ [{ image with filename := some n }],
        { st.res with updated := st.res.updated ++ [n] },
        true⟩ := by
  simp only [syncStep, hfind, hnew, ne_eq, hdiff, not_false_eq_true, if_true]

/-- C5 witness: the recorded `old.png` is not in the pool, the derived
`my-icon-dark@2x.png` is; the old file is deleted, the filename field is
rewritten, the pool file is copied in and the entry is updated. -/
theorem reconciler_replacement_wit :
    findImagePath ("My.Icon.imageset") wPoolA
      ⟨"universal", some ("old.png"), "2x", some [⟨"luminosity", "dark"⟩]⟩ =
      Except.ok (some ("my-icon-dark@2x.png")) ∧
    oldNameOf ⟨"universal", some ("old.png"), "2x", some [⟨"luminosity", "dark"⟩]⟩ ≠
      some ("my-icon-dark@2x.png") ∧
    syncStep ("My.Icon.imageset") wPoolA
        ⟨[("old.png", wOldSkip)], [], emptyResult, false⟩
        ⟨"universal", some ("old.png"), "2x", some [⟨"luminosity", "dark"⟩]⟩ =
      Except.ok ⟨[("my-icon-dark@2x.png", wFileA)],
        [⟨"universal", some ("my-icon-dark@2x.png"), "2x", some [⟨"luminosity", "dark"⟩]⟩],
        ⟨false, ["my-icon-dark@2x.png"], [], []⟩, true⟩ := by
  refine ⟨by decide, by decide, ?_⟩
  rw [reconciler_replacement ("My.Icon.imageset") wPoolA
    ⟨[("old.png", wOldSkip)], [], emptyResult, false⟩
    ⟨"universal", some ("old.png"), "2x", some [⟨"luminosity", "dark"⟩]⟩
    ("my-icon-dark@2x.png") wFileA (by decide) (by decide) (by decide)]
  decide

/-! ### C9 -/

/-- The first-occurrence behaviour of `replaceFirstAux`: writing the input as
`a ++ pat ++ b` where `pat` does not occur starting inside `a`, exactly that
occurrence is replaced and everything else is untouched. -/
theorem replaceFirstAux_first (pat rep : List Char) (hne : pat ≠ []) :
    ∀ a b : List Char, ¬ (pat <:+: (a ++ List.dropLast pat)) →
      replaceFirstAux pat rep (a ++ pat ++ b) = a ++ rep ++ b := by
  intro a
  induction a with
  | nil =>
    intro b _
    obtain ⟨p, ps, rfl⟩ := List.exists_cons_of_ne_nil hne
    simp only [List.nil_append, List.cons_append, replaceFirstAux, List.append_eq]
    have hpre : List.isPrefixOf (p :: ps) (p :: (ps ++ b)) = true := by
      rw [List.isPrefixOf_iff_prefix, ← List.cons_append]
      exact List.prefix_append _ _
    rw [if_pos hpre]
    simp [List.drop_left ps b, List.drop_succ_cons]
  | cons c a' ih =>
    intro b hfirst
    simp only [List.cons_append, replaceFirstAux, List.append_eq]
    have hnpre : ¬ (List.isPrefixOf pat (c :: (a' ++ pat ++ b)) = true) := by
      intro hpre
      apply hfirst
      rw [List.isPrefixOf_iff_prefix] at hpre
      have hlen : pat.length ≤ (c :: (a' ++ List.dropLast pat)).length := by
        have := List.length_dropLast pat
        have hp : 0 < pat.length := List.length_pos.mpr hne
        simp [List.length_cons, List.length_append, this]
        omega
      have hsub : (c :: (a' ++ List.dropLast pat)) <+: (c :: (a' ++ pat ++ b)) := by
        rw [List.cons_prefix_cons]
        refine ⟨rfl, ?_⟩
        rw [List.append_assoc]
        rw [List.prefix_append_right_inj]
        exact (List.dropLast_prefix pat).trans (List.prefix_append _ _)
      have := List.prefix_of_prefix_length_le hpre hsub hlen
      exact this.isInfix
    rw [if_neg hnpre]
    have hfirst' : ¬ (pat <:+: (a' ++ List.dropLast pat)) := by
      intro h
      exact hfirst (h.trans (List.infix_cons (List.infix_refl _)))
    rw [ih b hfirst']

/-- C9: the rewrite transform of line 117 inserts the padding space before
the colon of exactly the first occurrence of the key/value delimiter `": `
in the serialized output: writing that output as `a ++ delim ++ b` with no
earlier occurrence, the result is `a ++ padded-delim ++ b`, with `a` and `b`
byte-identical (any later occurrences inside `b` are untouched). -/
theorem quirk_first_delimiter (a b : List Char)
    (hfirst : ¬ (delimPat.data <:+: (a ++ List.dropLast delimPat.data))) :
    xcodeQuirk (String.mk (a ++ delimPat.data ++ b)) =
      String.mk (a ++ delimRep.data ++ b) := by
  unfold xcodeQuirk
  rw [replaceFirstAux_first delimPat.data delimRep.data (by decide) a b hfirst]

/-- Prefix of the serialized manifest up to the first key, for the C9
witness. -/
def wSerA : String := "\x7b\n  \"images"

/-- Rest of the serialized manifest for the C9 witness; it contains a second
occurrence of the delimiter, which must stay untouched. -/
def wSerB : String := "[],\n  \"version\": 1\x7d"

/-- C9 witness: in `{"images": [], "version": 1}` (2-space indented) only the
first delimiter gains the padding space; the later `"version": 1` keeps its
unpadded delimiter. -/
theorem quirk_first_delimiter_wit :
    (¬ (delimPat.data <:+: (wSerA.data ++ List.dropLast delimPat.data))) ∧
    xcodeQuirk (String.mk (wSerA.data ++ delimPat.data ++ wSerB.data)) =
      String.mk (wSerA.data ++ delimRep.data ++ wSerB.data) :=
  ⟨by decide, quirk_first_delimiter wSerA.data wSerB.data (by decide)⟩

/-! ### Association-list lemmas and helper facts for the Reconciler -/

/-- Lookup after erasing a key. -/
theorem lookup_eraseKey (d : FsDir) (k k' : String) :
    List.lookup k' (eraseKey d k) = if k' = k then none else List.lookup k' d := by
  induction d with
  | nil => simp [eraseKey]
  | cons p t ih =>
    rcases p with ⟨a, f⟩
    simp only [eraseKey, List.filter_cons] at *
    by_cases hak : a = k
    · subst hak
      simp only [beq_self_eq_true, Bool.not_true, Bool.false_eq_true, if_false]
      rw [ih]
      by_cases hk : k' = a
      · simp [hk]
      · simp [hk, List.lookup, beq_eq_false_iff_ne.mpr hk]
    · simp only [beq_eq_false_iff_ne.mpr hak, Bool.not_false, if_true]
      by_cases hk : k' = a
      · subst hk
        simp [List.lookup, hak]
      · simp [List.lookup, beq_eq_false_iff_ne.mpr hk, ih]

/-- Lookup after overwriting a key. -/
theorem lookup_upsert (d : FsDir) (k k' : String) (f : File) :
    List.lookup k' (upsert d k f) = if k' = k then some f else List.lookup k' d := by
  unfold upsert
  by_cases h : k' = k
  · simp [List.lookup, h]
  · simp [List.lookup, beq_eq_false_iff_ne.mpr h, h, lookup_eraseKey]

/-- An entry with a recorded old path has a truthy filename equal to it. -/
theorem oldNameOf_some (image : ImageSetImage) (o : String)
    (h : oldNameOf image = some o) :
    image.filename = some o ∧ o ≠ ("" : String) := by
  unfold oldNameOf at h
  by_cases ht : strTruthy image.filename = true
  · rw [if_pos ht] at h
    refine ⟨h, ?_⟩
    rw [h] at ht
    simpa [strTruthy] using ht
  · rw [if_neg ht] at h
    exact absurd h (by simp)

/-- An entry with no recorded old path cannot carry a non-empty filename. -/
theorem oldNameOf_none_ne (image : ImageSetImage) (n : String)
    (hn : n ≠ ("" : String)) (h : oldNameOf image = none) :
    image.filename ≠ some n := by
  intro hf
  rw [oldNameOf, hf] at h
  simp [strTruthy, hn] at h

/-- If the Locator resolved to `n` but the truthy recorded name `o` differs,
then `o` is not in the pool (otherwise the early return would have fired). -/
theorem lookup_pool_none_of_found_ne (setName : String) (pool : FsDir)
    (image : ImageSetImage) (n o : String)
    (hfind : findImagePath setName pool image = Except.ok (some n))
    (hf : image.filename = some o) (ho : o ≠ ("" : String)) (hon : o ≠ n) :
    List.lookup o pool = none := by
  cases hmem : List.lookup o pool with
  | none => rfl
  | some g =>
    have hhit := findImagePath_filename_hit setName pool image o hf ho (by simp [hmem])
    rw [hhit] at hfind
    have : o = n := by simpa using hfind
    exact absurd this hon

/-- A Locator hit makes `locHit` true. -/
theorem locHit_of_found (setName : String) (pool : FsDir) (image : ImageSetImage)
    (n : String) (h : findImagePath setName pool image = Except.ok (some n)) :
    locHit setName pool image = true := by
  simp [locHit, h]

/-- A Locator miss makes `locHit` false. -/
theorem locHit_of_none (setName : String) (pool : FsDir) (image : ImageSetImage)
    (h : findImagePath setName pool image = Except.ok none) :
    locHit setName pool image = false := by
  simp [locHit, h]

/-- An entry is settled w.r.t. a pool and an image-set folder when a further
reconciliation step cannot change anything: either the Locator misses, or
the recorded filename resolves in the pool and the folder copy agrees with
the pool copy in size and rounded modification time. -/
def Settled (setName : String) (pool setDir : FsDir) (image : ImageSetImage) : Prop :=
  findImagePath setName pool image = Except.ok none ∨
  ∃ n f g, image.filename = some n ∧ n ≠ ("" : String) ∧
    List.lookup n setDir = some f ∧ List.lookup n pool = some g ∧
    f.size = g.size ∧ jsRound f.mtimeMs = jsRound g.mtimeMs

/-- Settledness survives folder modifications that either keep a pool-named
entry or overwrite it with the pool's own copy. -/
theorem Settled_mono (setName : String) (pool setDir setDir' : FsDir)
    (image : ImageSetImage)
    (hdelta : ∀ k : String, List.lookup k setDir' = List.lookup k setDir ∨
      List.lookup k setDir' = List.lookup k pool)
    (hs : Settled setName pool setDir image) :
    Settled setName pool setDir' image := by
  rcases hs with h | ⟨n, f, g, hf, hn, hset, hpool, hsz, hmt⟩
  · exact Or.inl h
  · rcases hdelta n with hd | hd
    · exact Or.inr ⟨n, f, g, hf, hn, by rw [hd, hset], hpool, hsz, hmt⟩
    · exact Or.inr ⟨n, g, g, hf, hn, by rw [hd, hpool], hpool, rfl, rfl⟩

/-- Full characterization of one reconciliation step that returns normally:
the processed entry is appended (possibly with its filename reassigned) and
is settled w.r.t. the resulting folder; the `needsContentsUpdate` flag rises
exactly on a filename change; every folder name keeps its old file or
receives the pool's copy; and the updated+skipped count grows exactly on a
Locator hit. -/
theorem syncStep_spec (setName : String) (pool : FsDir) (st st' : SyncState)
    (image : ImageSetImage) (h : syncStep setName pool st image = Except.ok st') :
    ∃ img', st'.images = st.images ++ [img'] ∧
      Settled setName pool st'.set img' ∧
      (st'.needsUpdate = true ↔ (st.needsUpdate = true ∨ img'.filename ≠ image.filename)) ∧
      (∀ k : String, List.lookup k st'.set = List.lookup k st.set ∨
        List.lookup k st'.set = List.lookup k pool) ∧
      st'.res.updated.length + st'.res.skipped.length =
        st.res.updated.length + st.res.skipped.length +
          (if locHit setName pool img' = true then 1 else 0) := by
  cases hfind : findImagePath setName pool image with
  | error e =>
    simp only [syncStep, hfind] at h
    exact Except.noConfusion h
  | ok r =>
    cases r with
    | none =>
      simp only [syncStep, hfind] at h
      have hloc := locHit_of_none setName pool image hfind
      cases hf : image.filename with
      | none =>
        rw [hf] at h
        have hst : st' =
            { st with
              images := st.images ++ [image],
              res := { st.res with unassigned := true } } := (Except.ok.inj h).symm
        subst hst
        exact ⟨image, rfl, Or.inl hfind, by simp [hf], fun k => Or.inl rfl, by simp [hloc]⟩
      | some f =>
        rw [hf] at h
        have hst : st' =
            { st with
              images := st.images ++ [image],
              res := { st.res with missing := st.res.missing ++ [f] } } :=
          (Except.ok.inj h).symm
        subst hst
        exact ⟨image, rfl, Or.inl hfind, by simp [hf], fun k => Or.inl rfl, by simp [hloc]⟩
    | some n =>
      obtain ⟨hmem, hne⟩ := findImagePath_ok_props setName pool image n hfind
      obtain ⟨g, hg⟩ := Option.isSome_iff_exists.mp hmem
      have hloc := locHit_of_found setName pool image n hfind
      simp only [syncStep, hfind] at h
      by_cases hnn : oldNameOf image ≠ some n
      · rw [if_pos hnn] at h
        cases holdc : oldNameOf image with
        | none =>
          rw [holdc, hg] at h
          have hst : st' =
              { set := upsert st.set n g,
                images := st.images ++ [{ image with filename := some n }],
                res := { st.res with updated := st.res.updated ++ [n] },
                needsUpdate := true } := (Except.ok.inj h).symm
          subst hst
          have hfind' := findImagePath_filename_hit setName pool
            { image with filename := some n } n rfl hne hmem
          refine ⟨{ image with filename := some n }, rfl, ?_, ?_, ?_, ?_⟩
          · exact Or.inr ⟨n, g, g, rfl, hne,
              by rw [lookup_upsert, if_pos rfl], hg, rfl, rfl⟩
          · simp only [true_iff]
            exact Or.inr (Ne.symm (oldNameOf_none_ne image n hne holdc))
          · intro k
            by_cases hk : k = n
            · subst hk
              rw [lookup_upsert, if_pos rfl, hg]
              exact Or.inr rfl
            · rw [lookup_upsert, if_neg hk]
              exact Or.inl rfl
          · simp [locHit_of_found setName pool _ n hfind']
            omega
        | some o =>
          obtain ⟨hfo, hoe⟩ := oldNameOf_some image o holdc
          have ho : o ≠ n := by
            intro hc
            subst hc
            exact hnn holdc
          have hpoolo := lookup_pool_none_of_found_ne setName pool image n o hfind hfo hoe ho
          rw [holdc, hg] at h
          have hst : st' =
              { set := upsert (eraseKey st.set o) n g,
                images := st.images ++ [{ image with filename := some n }],
                res := { st.res with updated := st.res.updated ++ [n] },
                needsUpdate := true } := (Except.ok.inj h).symm
          subst hst
          have hfind' := findImagePath_filename_hit setName pool
            { image with filename := some n } n rfl hne hmem
          refine ⟨{ image with filename := some n }, rfl, ?_, ?_, ?_, ?_⟩
          · exact Or.inr ⟨n, g, g, rfl, hne,
              by rw [lookup_upsert, if_pos rfl], hg, rfl, rfl⟩
          · simp only [true_iff]
            refine Or.inr ?_
            rw [hfo]
            simp only [ne_eq, Option.some.injEq]
            exact fun hc => ho hc.symm
          · intro k
            by_cases hk : k = n
            · subst hk
              rw [lookup_upsert, if_pos rfl, hg]
              exact Or.inr rfl
            · rw [lookup_upsert, if_neg hk, lookup_eraseKey]
              by_cases hko : k = o
              · subst hko
                rw [if_pos rfl, hpoolo]
                exact Or.inr rfl
              · rw [if_neg hko]
                exact Or.inl rfl
          · simp [locHit_of_found setName pool _ n hfind']
            omega
      · have holdc : oldNameOf image = some n := not_ne_iff.mp hnn
        obtain ⟨hfo, hoe⟩ := oldNameOf_some image n holdc
        rw [if_neg hnn] at h
        rw [holdc] at h
        simp only [Option.some_bind] at h
        rw [hg] at h
        cases hmatch : statMatchB (List.lookup n st.set) (some g) with
        | true =>
          simp only [hmatch] at h
          have hst : st' =
              { st with
                images := st.images ++ [image],
                res := { st.res with skipped := st.res.skipped ++ [n] } } :=
            (Except.ok.inj h).symm
          subst hst
          refine ⟨image, rfl, ?_, by simp, fun k => Or.inl rfl, by simp [hloc]; omega⟩
          cases hset : List.lookup n st.set with
          | none =>
            rw [hset] at hmatch
            simp [statMatchB] at hmatch
          | some f =>
            rw [hset] at hmatch
            simp only [statMatchB, Bool.and_eq_true, beq_iff_eq] at hmatch
            exact Or.inr ⟨n, f, g, hfo, hoe, hset, hg, hmatch.1.symm, hmatch.2.symm⟩
        | false =>
          simp only [hmatch] at h
          have hst : st' =
              { st with
                set := upsert st.set n g,
                images := st.images ++ [image],
                res := { st.res with updated := st.res.updated ++ [n] } } :=
            (Except.ok.inj h).symm
          subst hst
          refine ⟨image, rfl, ?_, by simp, ?_, by simp [hloc]; omega⟩
          · exact Or.inr ⟨n, g, g, hfo, hoe,
              by rw [lookup_upsert, if_pos rfl], hg, rfl, rfl⟩
          · intro k
            by_cases hk : k = n
            · subst hk
              rw [lookup_upsert, if_pos rfl, hg]
              exact Or.inr rfl
            · rw [lookup_upsert, if_neg hk]
              exact Or.inl rfl

/-- Along a successful run, every processed entry stays settled w.r.t. the
evolving image-set folder. -/
theorem syncImages_settles (setName : String) (pool : FsDir) :
    ∀ (rest : List ImageSetImage) (st st' : SyncState),
      syncImages setName pool st rest = Except.ok st' →
      (∀ image ∈ st.images, Settled setName pool st.set image) →
      (∀ image ∈ st'.images, Settled setName pool st'.set image) := by
  intro rest
  induction rest with
  | nil =>
    intro st st' h hall
    simp only [syncImages] at h
    obtain rfl := Except.ok.inj h
    exact hall
  | cons image rest ih =>
    intro st st' h hall
    simp only [syncImages] at h
    cases hstep : syncStep setName pool st image with
    | error e =>
      rw [hstep] at h
      exact Except.noConfusion h
    | ok st1 =>
      rw [hstep] at h
      have h' : syncImages setName pool st1 rest = Except.ok st' := h
      obtain ⟨img', himg, hsettled, _, hdelta, _⟩ := syncStep_spec setName pool st st1 image hstep
      apply ih st1 st' h'
      intro x hx
      rw [himg] at hx
      rcases List.mem_append.mp hx with hx | hx
      · exact Settled_mono setName pool st.set st1.set x hdelta (hall x hx)
      · have hxi : x = img' := by simpa using hx
        subst hxi
        exact hsettled

/-- Along a successful run, updated + skipped counts exactly the processed
entries on which the Locator resolves. -/
theorem syncImages_counts (setName : String) (pool : FsDir) :
    ∀ (rest : List ImageSetImage) (st st' : SyncState),
      syncImages setName pool st rest = Except.ok st' →
      ∃ out, st'.images = st.images ++ out ∧
        st'.res.updated.length + st'.res.skipped.length =
          st.res.updated.length + st.res.skipped.length +
            List.countP (fun x => locHit setName pool x) out := by
  intro rest
  induction rest with
  | nil =>
    intro st st' h
    simp only [syncImages] at h
    obtain rfl := Except.ok.inj h
    exact ⟨[], by simp, by simp⟩
  | cons image rest ih =>
    intro st st' h
    simp only [syncImages] at h
    cases hstep : syncStep setName pool st image with
    | error e =>
      rw [hstep] at h
      exact Except.noConfusion h
    | ok st1 =>
      rw [hstep] at h
      have h' : syncImages setName pool st1 rest = Except.ok st' := h
      obtain ⟨img', himg, _, _, _, hcnt⟩ := syncStep_spec setName pool st st1 image hstep
      obtain ⟨out, hout, hcnt'⟩ := ih st1 st' h'
      refine ⟨img' :: out, ?_, ?_⟩
      · rw [hout, himg, List.append_assoc]
        rfl
      · rw [hcnt', hcnt]
        simp only [List.countP_cons]
        omega

/-- One step on a settled entry leaves the folder, the flag and the updated
list untouched, appends the entry unchanged, and grows skipped exactly on a
Locator hit. -/
theorem syncStep_settled (setName : String) (pool : FsDir) (st : SyncState)
    (image : ImageSetImage) (hs : Settled setName pool st.set image) :
    ∃ r', syncStep setName pool st image =
        Except.ok ⟨st.set, st.images ++ [image], r', st.needsUpdate⟩ ∧
      r'.updated = st.res.updated ∧
      r'.skipped.length = st.res.skipped.length +
        (if locHit setName pool image = true then 1 else 0) := by
  rcases hs with hmiss | ⟨n, f, g, hf, hn, hset, hpool, hsz, hmt⟩
  · have hloc := locHit_of_none setName pool image hmiss
    cases hf : image.filename with
    | none =>
      refine ⟨{ st.res with unassigned := true }, ?_, rfl, by simp [hloc]⟩
      simp [syncStep, hmiss, hf]
    | some fn =>
      refine ⟨{ st.res with missing := st.res.missing ++ [fn] }, ?_, rfl, by simp [hloc]⟩
      simp [syncStep, hmiss, hf]
  · have hfind := findImagePath_filename_hit setName pool image n hf hn (by simp [hpool])
    have hloc := locHit_of_found setName pool image n hfind
    have holdn : oldNameOf image = some n := by simp [oldNameOf, strTruthy, hf, hn]
    have hmatch : statMatchB (List.lookup n st.set) (List.lookup n pool) = true := by
      rw [hset, hpool]
      simp [statMatchB, hsz, hmt]
    refine ⟨{ st.res with skipped := st.res.skipped ++ [n] }, ?_, rfl, by simp [hloc]⟩
    simp only [syncStep, hfind, holdn, Option.some_bind]
    rw [if_neg (show ¬ ((some n : Option String) ≠ some n) by simp), if_pos hmatch]

/-- A run over settled entries performs no mutation: the folder, flag and
updated list are unchanged, and each Locator hit is counted as skipped. -/
theorem syncImages_settled_run (setName : String) (pool : FsDir) :
    ∀ (imgs : List ImageSetImage) (st : SyncState),
      (∀ image ∈ imgs, Settled setName pool st.set image) →
      ∃ st', syncImages setName pool st imgs = Except.ok st' ∧
        st'.set = st.set ∧ st'.needsUpdate = st.needsUpdate ∧
        st'.res.updated = st.res.updated ∧
        st'.res.skipped.length = st.res.skipped.length +
          List.countP (fun x => locHit setName pool x) imgs ∧
        st'.images = st.images ++ imgs := by
  intro imgs
  induction imgs with
  | nil =>
    intro st _
    exact ⟨st, rfl, rfl, rfl, rfl, by simp, by simp⟩
  | cons image rest ih =>
    intro st hall
    obtain ⟨r', hstep, hupd, hskip⟩ := syncStep_settled setName pool st image
      (hall image (by simp))
    have hall' : ∀ x ∈ rest,
        Settled setName pool
          (⟨st.set, st.images ++ [image], r', st.needsUpdate⟩ : SyncState).set x := by
      intro x hx
      exact hall x (by simp [hx])
    obtain ⟨st', hrun, hsets, hnu, hupd', hskip', himgs⟩ :=
      ih ⟨st.set, st.images ++ [image], r', st.needsUpdate⟩ hall'
    refine ⟨st', ?_, hsets, hnu, hupd'.trans hupd, ?_, ?_⟩
    · simp only [syncImages, hstep]
      exact hrun
    · have h1 : st'.res.skipped.length =
          r'.skipped.length + List.countP (fun x => locHit setName pool x) rest := hskip'
      simp only [List.countP_cons]
      omega
    · rw [himgs]
      simp

/-- Index-wise existence over two cons lists splits into head and tail. -/
theorem exists_get_cons_iff {α β : Type} (P : α → β → Prop) (x : α) (xs : List α)
    (y : β) (ys : List β) :
    (∃ i, ∃ hi : i < (x :: xs).length, ∃ hj : i < (y :: ys).length,
        P ((x :: xs).get ⟨i, hi⟩) ((y :: ys).get ⟨i, hj⟩)) ↔
      (P x y ∨ ∃ i, ∃ hi : i < xs.length, ∃ hj : i < ys.length,
        P (xs.get ⟨i, hi⟩) (ys.get ⟨i, hj⟩)) := by
  constructor
  · rintro ⟨i, hi, hj, hp⟩
    cases i with
    | zero => exact Or.inl hp
    | succ k =>
      exact Or.inr ⟨k, Nat.lt_of_succ_lt_succ hi, Nat.lt_of_succ_lt_succ hj, hp⟩
  · rintro (hp | ⟨i, hi, hj, hp⟩)
    · exact ⟨0, Nat.succ_pos _, Nat.succ_pos _, hp⟩
    · exact ⟨i + 1, Nat.succ_lt_succ hi, Nat.succ_lt_succ hj, hp⟩

/-- Along a successful run, the processed entries match the input entries
position by position, and the `needsContentsUpdate` flag is raised exactly
when some position's filename changed. -/
theorem syncImages_filenames (setName : String) (pool : FsDir) :
    ∀ (rest : List ImageSetImage) (st st' : SyncState),
      syncImages setName pool st rest = Except.ok st' →
      ∃ out, st'.images = st.images ++ out ∧ out.length = rest.length ∧
        (st'.needsUpdate = true ↔ (st.needsUpdate = true ∨
          ∃ i, ∃ hi : i < out.length, ∃ hj : i < rest.length,
            (out.get ⟨i, hi⟩).filename ≠ (rest.get ⟨i, hj⟩).filename)) := by
  intro rest
  induction rest with
  | nil =>
    intro st st' h
    simp only [syncImages] at h
    obtain rfl := Except.ok.inj h
    refine ⟨[], by simp, rfl, by simp⟩
  | cons image rest ih =>
    intro st st' h
    simp only [syncImages] at h
    cases hstep : syncStep setName pool st image with
    | error e =>
      rw [hstep] at h
      exact Except.noConfusion h
    | ok st1 =>
      rw [hstep] at h
      have h' : syncImages setName pool st1 rest = Except.ok st' := h
      obtain ⟨img', himg, _, hiff, _, _⟩ := syncStep_spec setName pool st st1 image hstep
      obtain ⟨out, hout, hlen, hiff'⟩ := ih st1 st' h'
      refine ⟨img' :: out, ?_, by simp [hlen], ?_⟩
      · rw [hout, himg, List.append_assoc]
        rfl
      · rw [hiff', hiff,
          exists_get_cons_iff (fun a b => a.filename ≠ b.filename) img' out image rest]
        tauto

/-! ### C6 -/

/-- C6: within one image-set reconciliation, the manifest is rewritten if
and only if at least one entry's `filename` field changed value during the
run (position by position against the input manifest). -/
theorem manifest_rewrite_iff_filename_change (setName : String) (pool : FsDir)
    (setDir : FsDir) (imgs : List ImageSetImage) (st : SyncState)
    (h : syncImageSet setName pool setDir imgs = Except.ok st) :
    st.images.length = imgs.length ∧
    (manifestRewritten st = true ↔
      ∃ i, ∃ hi : i < st.images.length, ∃ hj : i < imgs.length,
        (st.images.get ⟨i, hi⟩).filename ≠ (imgs.get ⟨i, hj⟩).filename) := by
  obtain ⟨out, himg, hlen, hiff⟩ := syncImages_filenames setName pool imgs
    ⟨setDir, [], emptyResult, false⟩ st h
  have hout : st.images = out := by simpa using himg
  subst hout
  refine ⟨hlen, ?_⟩
  rw [manifestRewritten, hiff]
  simp

/-- Pool and entry for the C6 and C7 witnesses. -/
def wPoolC : FsDir := [("icon.png", wFileA)]

/-- Entry with no recorded filename; the derivation resolves `icon.png`. -/
def wImgNoFile : ImageSetImage := ⟨"universal", none, "1x", none⟩

/-- The state after the first reconciliation of `wImgNoFile`. -/
def wStC : SyncState :=
  ⟨[("icon.png", wFileA)], [⟨"universal", some ("icon.png"), "1x", none⟩],
    ⟨false, ["icon.png"], [], []⟩, true⟩

/-- C6 witness: assigning `icon.png` to the empty entry changes its filename
field, and the manifest is rewritten. -/
theorem manifest_rewrite_iff_filename_change_wit :
    syncImageSet ("Icon.imageset") wPoolC [] [wImgNoFile] = Except.ok wStC ∧
    (wStC.images.length = [wImgNoFile].length ∧
      (manifestRewritten wStC = true ↔
        ∃ i, ∃ hi : i < wStC.images.length, ∃ hj : i < [wImgNoFile].length,
          (wStC.images.get ⟨i, hi⟩).filename ≠ ([wImgNoFile].get ⟨i, hj⟩).filename)) :=
  ⟨by decide, manifest_rewrite_iff_filename_change ("Icon.imageset") wPoolC []
    [wImgNoFile] wStC (by decide)⟩

/-! ### C7 -/

/-- C7: running reconciliation twice with the same pool yields no updated
entries and no manifest rewrite on the second run, and the second run's
skipped count absorbs both the updated and the skipped entries of the first
run (each first-run updated entry is re-classified as skipped). -/
theorem second_run_idempotent (setName : String) (pool : FsDir) (setDir : FsDir)
    (imgs : List ImageSetImage) (st1 st2 : SyncState)
    (h1 : syncImageSet setName pool setDir imgs = Except.ok st1)
    (h2 : syncImageSet setName pool st1.set st1.images = Except.ok st2) :
    st2.res.updated = ([] : List String) ∧ manifestRewritten st2 = false ∧
    st2.res.skipped.length = st1.res.updated.length + st1.res.skipped.length := by
  have hsettled : ∀ image ∈ st1.images, Settled setName pool st1.set image := by
    refine syncImages_settles setName pool imgs ⟨setDir, [], emptyResult, false⟩ st1 h1 ?_
    intro x hx
    exact absurd hx (by simp)
  obtain ⟨out, hout, hcnt⟩ := syncImages_counts setName pool imgs
    ⟨setDir, [], emptyResult, false⟩ st1 h1
  have hout' : st1.images = out := by simpa using hout
  obtain ⟨st2', hrun, hsets, hnu, hupd, hskip, _⟩ := syncImages_settled_run setName pool
    st1.images ⟨st1.set, [], emptyResult, false⟩ (by intro x hx; exact hsettled x hx)
  have heq : st2 = st2' := by
    have h2' : syncImages setName pool ⟨st1.set, [], emptyResult, false⟩ st1.images =
        Except.ok st2 := h2
    rw [h2'] at hrun
    exact Except.ok.inj hrun
  subst heq
  refine ⟨hupd, hnu, ?_⟩
  have hskip' : st2.res.skipped.length =
      List.countP (fun x => locHit setName pool x) st1.images := by
    simpa [emptyResult] using hskip
  have hcnt' : st1.res.updated.length + st1.res.skipped.length =
      List.countP (fun x => locHit setName pool x) out := by
    simpa [emptyResult] using hcnt
  rw [hout'] at hskip'
  omega

/-- The state after the second reconciliation: the entry is skipped, nothing
is touched. -/
def wStC2 : SyncState :=
  ⟨[("icon.png", wFileA)], [⟨"universal", some ("icon.png"), "1x", none⟩],
    ⟨false, [], [], ["icon.png"]⟩, false⟩

/-- C7 witness: the entry updated in the first run is skipped in the second
run, which rewrites nothing. -/
theorem second_run_idempotent_wit :
    syncImageSet ("Icon.imageset") wPoolC [] [wImgNoFile] = Except.ok wStC ∧
    syncImageSet ("Icon.imageset") wPoolC wStC.set wStC.images = Except.ok wStC2 ∧
    (wStC2.res.updated = ([] : List String) ∧ manifestRewritten wStC2 = false ∧
      wStC2.res.skipped.length = wStC.res.updated.length + wStC.res.skipped.length) :=
  ⟨by decide, by decide,
    second_run_idempotent ("Icon.imageset") wPoolC [] [wImgNoFile] wStC wStC2
      (by decide) (by decide)⟩
